import Mathlib

/-!
Verification of the bus-recording and analysis core of the
`bus_analysis` package (files `myutils.py` and `data_downloader.py`).

The Python code is shallowly embedded: timestamps become integers
(seconds), positions carry rational coordinates, the geodesic distance
function (provided by the external `geopy` library) is an abstract
parameter, Python dictionaries become functions into `Option`, Python
exceptions become `Except` results, and the retrying download loop is
driven by the finite stream of responses the transport would deliver.
-/

namespace BusAnalysis

abbrev VehicleNumberType := String
abbrev Time := Int

/-- Embedding of `myutils.Position` (latitude/longitude pair).  The
geodesic `distance_to` operation delegates to the external `geopy`
library, so distance is an abstract parameter throughout. -/
structure Position where
  lat : ℚ
  lon : ℚ
deriving DecidableEq

/-- Embedding of `myutils.BusRecord`. -/
structure BusRecord where
  vehicle_number : VehicleNumberType
  line : String
  brigade : String
  time : Time
  pos : Position
deriving DecidableEq

/-- Python's `BusRecord.__eq__`/`__hash__` identify records by the pair
(vehicle number, timestamp); this key realises that identity for the
`visited` set of the hotspot clustering. -/
def recKey (r : BusRecord) : VehicleNumberType × Time :=
  (r.vehicle_number, r.time)

/-- Embedding of `myutils.BusRecordingStatistics` (the five instance
attributes set by `__init__`). -/
structure BusRecordingStatistics where
  n_requests : Nat
  n_successful_requests : Nat
  n_records : Nat
  processing_start_time : Time
  processing_end_time : Time
deriving DecidableEq

/-- Embedding of `BusRecordingStatistics.add_requests_and_records_info`:
the three counters are summed, the start time comes from `self` and the
end time from `other`. -/
def BusRecordingStatistics.add_requests_and_records_info
    (self other : BusRecordingStatistics) : BusRecordingStatistics :=
  { n_requests := self.n_requests + other.n_requests
    n_successful_requests :=
      self.n_successful_requests + other.n_successful_requests
    n_records := self.n_records + other.n_records
    processing_start_time := self.processing_start_time
    processing_end_time := other.processing_end_time }

/-- Embedding of `myutils.TimeParser`: only the direction used by the
statistics serialisation is needed, `strftime` with the configured
format being external it is an abstract string-valued function. -/
structure TimeParser where
  parse_to_str : Time → String

/-- Values appearing in the dictionary built by
`BusRecordingStatistics.to_json`: integers for the counters, strings
for the formatted timestamps. -/
inductive StatsJsonValue
  | num (n : Nat)
  | str (s : String)
deriving DecidableEq

/-- Embedding of `BusRecordingStatistics.to_json`.  Python dictionaries
preserve insertion order, so the dictionary is modelled as the ordered
list of its key/value pairs. -/
def BusRecordingStatistics.to_json (self : BusRecordingStatistics)
    (tp : TimeParser) : List (String × StatsJsonValue) :=
  [("Number of requests", .num self.n_requests),
   ("Number of successful requests", .num self.n_successful_requests),
   ("Number of records", .num self.n_records),
   ("Processing start time",
    .str (tp.parse_to_str self.processing_start_time)),
   ("Processing end time",
    .str (tp.parse_to_str self.processing_end_time))]

/-- Python exceptions that the embedded fragments can raise. -/
inductive PyError
  | zeroDivisionError
  | keyError
deriving DecidableEq

/-- Embedding of `myutils.get_speed`.  `gc` stands for the external
`geopy.distance.great_circle(..).m` distance; dividing a Python float
by the zero float raises `ZeroDivisionError`, hence the `Except`. -/
def get_speed (gc : Position → Position → ℚ) (rec1 rec2 : BusRecord) :
    Except PyError ℚ :=
  let dist := gc rec1.pos rec2.pos
  let t_delta : ℚ := ((rec2.time - rec1.time : Int) : ℚ)
  if t_delta = 0 then .error .zeroDivisionError else .ok (dist / t_delta)

/-- The loop body of `myutils.get_speeds`: `prev` is record `i - 1`,
the list holds records `i, i + 1, ...`; a `ZeroDivisionError` raised by
`get_speed` aborts the whole computation, as in Python. -/
def get_speeds_aux (gc : Position → Position → ℚ) :
    BusRecord → List BusRecord → Except PyError (List (Option ℚ))
  | _, [] => .ok []
  | prev, rec :: rest =>
    if prev.vehicle_number = rec.vehicle_number then
      match get_speed gc prev rec with
      | .error e => .error e
      | .ok s => (get_speeds_aux gc rec rest).map (fun l => some s :: l)
    else
      (get_speeds_aux gc rec rest).map (fun l => none :: l)

/-- Embedding of `myutils.get_speeds`: the result list starts as
`[None]` and one entry is appended per index `i ≥ 1`. -/
def get_speeds (gc : Position → Position → ℚ) (bus_recs : List BusRecord) :
    Except PyError (List (Option ℚ)) :=
  match bus_recs with
  | [] => .ok [none]
  | r :: rest => (get_speeds_aux gc r rest).map (fun l => none :: l)

/-- The filtering condition of `myutils.print_bus_speed_info` applied
to one sample's speed, excluding the membership test on the accumulated
set: the speed must exist, strictly exceed `min_speed`, and be strictly
below `max_speed` when a maximum is given. -/
def speed_in_band_code (min_speed : ℚ) (max_speed : Option ℚ)
    (speed : Option ℚ) : Bool :=
  match speed with
  | none => false
  | some s =>
    decide (min_speed < s) &&
      (match max_speed with
       | none => true
       | some m => decide (s < m))

/-- The accumulation loop of `myutils.print_bus_speed_info`: the set
`speeding_bus_vehicle_nums` is modelled as a duplicate-free list. -/
def speeding_bus_vehicle_nums (min_speed : ℚ) (max_speed : Option ℚ) :
    List (BusRecord × Option ℚ) → List VehicleNumberType →
      List VehicleNumberType
  | [], acc => acc
  | (rec, speed) :: rest, acc =>
    if rec.vehicle_number ∉ acc ∧
        speed_in_band_code min_speed max_speed speed = true then
      speeding_bus_vehicle_nums min_speed max_speed rest
        (rec.vehicle_number :: acc)
    else
      speeding_bus_vehicle_nums min_speed max_speed rest acc

/-- Observable outcome of `myutils.print_bus_speed_info`: either the
early-return message for an empty input, or the reported count of
band-matching vehicles together with the total vehicle count and the
printed percentage (prior to the two-decimal formatting). -/
inductive SpeedInfoOutput
  | noBuses
  | report (n_speeding : Nat) (n_buses : Nat) (percentage : ℚ)
deriving DecidableEq

/-- Embedding of `myutils.print_bus_speed_info` up to its printing:
the numbers that the final message interpolates. -/
def print_bus_speed_info (bus_speeds : List (BusRecord × Option ℚ))
    (min_speed : ℚ) (max_speed : Option ℚ) : SpeedInfoOutput :=
  match bus_speeds with
  | [] => .noBuses
  | _ :: _ =>
    let n_speeding :=
      (speeding_bus_vehicle_nums min_speed max_speed bus_speeds []).length
    let n_buses :=
      ((bus_speeds.map (fun p => p.1.vehicle_number)).dedup).length
    .report n_speeding n_buses ((n_speeding : ℚ) / (n_buses : ℚ) * 100)

/-- The inner loop of `myutils.get_positions_of_interest`: starting
from the seed's count of `1`, every not-yet-visited record strictly
within 100 meters of the seed is marked visited and counted. -/
def count_in_vicinity (gc : Position → Position → ℚ) (rec : BusRecord) :
    List (BusRecord × Option ℚ) → List (VehicleNumberType × Time) → Nat →
      Nat × List (VehicleNumberType × Time)
  | [], visited, n => (n, visited)
  | (rec2, _) :: rest, visited, n =>
    if recKey rec2 ∉ visited ∧ gc rec.pos rec2.pos < 100 then
      count_in_vicinity gc rec rest (recKey rec2 :: visited) (n + 1)
    else
      count_in_vicinity gc rec rest visited n

/-- The outer loop of `myutils.get_positions_of_interest`: `all` is the
full input list which the inner loop re-traverses, the second list is
the remaining suffix being iterated. -/
def poi_loop (gc : Position → Position → ℚ)
    (all : List (BusRecord × Option ℚ)) :
    List (BusRecord × Option ℚ) → List (VehicleNumberType × Time) →
      List (Position × Nat)
  | [], _ => []
  | (rec, _) :: rest, visited =>
    if recKey rec ∈ visited then
      poi_loop gc all rest visited
    else
      let p := count_in_vicinity gc rec all (recKey rec :: visited) 1
      (rec.pos, p.1) :: poi_loop gc all rest p.2

/-- Embedding of `myutils.get_positions_of_interest`. -/
def get_positions_of_interest (gc : Position → Position → ℚ)
    (bus_speeds : List (BusRecord × Option ℚ)) : List (Position × Nat) :=
  poi_loop gc bus_speeds bus_speeds []

/-- Second definition for claim C5, following the spec's words rather
than the code: the cluster seeded at `seed` gets as members "all other
unvisited records within 100 meters (great-circle) of the seed", where
a record's identity is its `recKey` and `visited` — here a set, with
the seed's key already inserted — says which records were visited. -/
def spec_cluster_members (gc : Position → Position → ℚ) (seed : BusRecord)
    (visited : Finset (VehicleNumberType × Time))
    (all : List (BusRecord × Option ℚ)) :
    Finset (VehicleNumberType × Time) :=
  ((all.filter (fun p => decide (recKey p.1 ∉ visited) &&
      decide (gc seed.pos p.1.pos < 100))).map
    (fun p => recKey p.1)).toFinset

/-- Second definition for claim C5, following the spec's words: walk
the input in order; each not-yet-visited record seeds a cluster whose
members are the other unvisited records within 100 meters of the seed
(one pass, distance to the seed only, no transitive merging); report
(seed position, member count with the seed included) and mark seed and
members visited. -/
def spec_clusters_go (gc : Position → Position → ℚ)
    (all : List (BusRecord × Option ℚ)) :
    List (BusRecord × Option ℚ) → Finset (VehicleNumberType × Time) →
      List (Position × Nat)
  | [], _ => []
  | (rec, _) :: rest, visited =>
    if recKey rec ∈ visited then
      spec_clusters_go gc all rest visited
    else
      (rec.pos,
        1 + (spec_cluster_members gc rec (insert (recKey rec) visited)
          all).card)
        :: spec_clusters_go gc all rest
            (spec_cluster_members gc rec (insert (recKey rec) visited) all
              ∪ insert (recKey rec) visited)

/-- The spec-level clustering of a whole input: no record starts
visited. -/
def spec_clusters (gc : Position → Position → ℚ)
    (bus_speeds : List (BusRecord × Option ℚ)) : List (Position × Nat) :=
  spec_clusters_go gc bus_speeds bus_speeds ∅

/-- The mutable `last_bus_recs` dictionary of the recording loop,
mapping a vehicle number to the last timestamp seen for it. -/
abbrev LastBusRecs := VehicleNumberType → Option Time

/-- The empty `last_bus_recs` dictionary. -/
def empty_last_seen : LastBusRecs := fun _ => none

/-- The dictionary assignment `last_bus_recs[veh_num] = time`. -/
def dict_insert (m : LastBusRecs) (veh_num : VehicleNumberType)
    (t : Time) : LastBusRecs :=
  fun v => if v = veh_num then some t else m v

/-- Embedding of `DataDownloader._is_record_valid`.  The Python method
mutates `last_bus_recs`, so the embedding returns the updated
dictionary next to the boolean verdict: when the vehicle's last seen
timestamp is at least the record's, the record is rejected with the
dictionary unchanged; otherwise the dictionary is updated first and
only then is the record's timestamp compared with the session start. -/
def is_record_valid (last_bus_recs : LastBusRecs) (bus_rec : BusRecord)
    (time_of_start : Time) : Bool × LastBusRecs :=
  match last_bus_recs bus_rec.vehicle_number with
  | some t =>
    if t ≥ bus_rec.time then
      (false, last_bus_recs)
    else
      (decide (bus_rec.time > time_of_start),
       dict_insert last_bus_recs bus_rec.vehicle_number bus_rec.time)
  | none =>
    (decide (bus_rec.time > time_of_start),
     dict_insert last_bus_recs bus_rec.vehicle_number bus_rec.time)

/-- The `valid_buses` list comprehension of
`DataDownloader._record_buses_loop`: records are tested left to right,
each test threading the mutated `last_bus_recs` dictionary. -/
def filter_valid (time_of_start : Time) :
    LastBusRecs → List BusRecord → List BusRecord × LastBusRecs
  | m, [] => ([], m)
  | m, r :: rs =>
    let p := is_record_valid m r time_of_start
    let q := filter_valid time_of_start p.2 rs
    (if p.1 then r :: q.1 else q.1, q.2)

/-- The body of `DataDownloader._record_buses_loop`, driven by the
finite sequence of snapshots the iterations would fetch (each snapshot
being the parsed records together with that iteration's statistics).
`t0` stands for the `datetime.now()` default of the initial
`BusRecordingStatistics()`. -/
def record_buses_loop_go (time_of_start : Time) :
    LastBusRecs → BusRecordingStatistics →
      List (List BusRecord × BusRecordingStatistics) →
        List BusRecord × BusRecordingStatistics
  | _, stats, [] => ([], stats)
  | m, stats, (cur_bus_recs, cur_stats) :: rest =>
    let fv := filter_valid time_of_start m cur_bus_recs
    let q := record_buses_loop_go time_of_start fv.2
      (stats.add_requests_and_records_info cur_stats) rest
    (fv.1 ++ q.1, q.2)

/-- Embedding of `DataDownloader._record_buses_loop`: the dictionary
starts empty and the statistics start from `BusRecordingStatistics()`. -/
def record_buses_loop (time_of_start t0 : Time)
    (snapshots : List (List BusRecord × BusRecordingStatistics)) :
    List BusRecord × BusRecordingStatistics :=
  record_buses_loop_go time_of_start empty_last_seen
    ⟨0, 0, 0, t0, t0⟩ snapshots

/-- The `result` field of an API response as far as the fetch layer
inspects it: a JSON list (of entries it does not look into here) or
any non-list value such as an error string. -/
inductive ApiResult
  | listResult (items : List String)
  | nonList (text : String)
deriving DecidableEq

/-- A transported API response: a JSON object that may or may not have
a `result` key. -/
structure ApiResponse where
  result : Option ApiResult
deriving DecidableEq

/-- Embedding of `data_downloader.is_response_json_valid`. -/
def is_response_json_valid (response : ApiResponse) : Bool :=
  match response.result with
  | some (.listResult _) => true
  | _ => false

/-- Embedding of `data_downloader.log_api_error`: the warning message
interpolates `response["result"]`, so a response without a `result`
key raises `KeyError`. -/
def log_api_error (response : ApiResponse) : Except PyError Unit :=
  match response.result with
  | some _ => .ok ()
  | none => .error .keyError

/-- Outcome of `DataDownloader._download_valid_json` on a finite stream
of responses: a structurally valid response with the attempt count, an
uncaught Python exception with the attempt count at raise time, or the
loop still retrying after consuming the whole stream. -/
inductive DownloadOutcome
  | success (response : ApiResponse) (n_requests : Nat)
  | raised (e : PyError) (n_requests : Nat)
  | retrying (n_requests : Nat)
deriving DecidableEq

/-- Embedding of `DataDownloader._download_valid_json`: each loop turn
downloads the next response of the stream, increments `n_requests`,
returns on a structurally valid response, and otherwise calls
`log_api_error` before retrying. -/
def download_valid_json : List ApiResponse → Nat → DownloadOutcome
  | [], n_requests => .retrying n_requests
  | response :: rest, n_requests =>
    let n := n_requests + 1
    if is_response_json_valid response then
      .success response n
    else
      match log_api_error response with
      | .error e => .raised e n
      | .ok _ => download_valid_json rest n

/-- The statistics construction of `DataDownloader._download_current_buses`
on top of a completed fetch: `BusRecordingStatistics(cur_n_requests, 1)`,
with `t0` standing for the `datetime.now()` defaults. -/
def download_current_buses_stats (responses : List ApiResponse)
    (t0 : Time) : Option BusRecordingStatistics :=
  match download_valid_json responses 0 with
  | .success _ n => some ⟨n, 1, 0, t0, t0⟩
  | _ => none

/-- A concrete record used to instantiate universally quantified
theorems on explicit inputs. -/
def sample_record (veh : String) (t : Time) (lat : ℚ) : BusRecord :=
  ⟨veh, "1", "1", t, ⟨lat, 21⟩⟩

/-- The relation between the records accepted so far and the
`last_bus_recs` dictionary maintained by the recording loop: a vehicle
absent from the dictionary has no accepted record, and a vehicle
mapped to `t` has all its accepted records at timestamps at most `t`,
where `t` either is the timestamp of an accepted record or does not
exceed the session start (a stale pre-session observation). -/
def LastSeenInv (time_of_start : Time) (accepted : List BusRecord)
    (m : LastBusRecs) : Prop :=
  (∀ v, m v = none → ∀ a ∈ accepted, a.vehicle_number ≠ v) ∧
  (∀ v t, m v = some t →
    (∀ a ∈ accepted, a.vehicle_number = v → a.time ≤ t) ∧
    (t ≤ time_of_start ∨ ∃ a ∈ accepted, a.vehicle_number = v ∧ a.time = t))

end BusAnalysis

namespace BusAnalysis

/-- Claim C6: `add_requests_and_records_info` sums the three counters,
takes the window start from the left operand and the window end from
the right one, and is associative on the three counters. -/
theorem merge_statistics_spec (a b c : BusRecordingStatistics) :
    ((a.add_requests_and_records_info b).n_requests
        = a.n_requests + b.n_requests ∧
      (a.add_requests_and_records_info b).n_successful_requests
        = a.n_successful_requests + b.n_successful_requests ∧
      (a.add_requests_and_records_info b).n_records
        = a.n_records + b.n_records ∧
      (a.add_requests_and_records_info b).processing_start_time
        = a.processing_start_time ∧
      (a.add_requests_and_records_info b).processing_end_time
        = b.processing_end_time) ∧
    (((a.add_requests_and_records_info b).add_requests_and_records_info
          c).n_requests
        = (a.add_requests_and_records_info
            (b.add_requests_and_records_info c)).n_requests ∧
      ((a.add_requests_and_records_info b).add_requests_and_records_info
          c).n_successful_requests
        = (a.add_requests_and_records_info
            (b.add_requests_and_records_info c)).n_successful_requests ∧
      ((a.add_requests_and_records_info b).add_requests_and_records_info
          c).n_records
        = (a.add_requests_and_records_info
            (b.add_requests_and_records_info c)).n_records) := by
  refine ⟨⟨rfl, rfl, rfl, rfl, rfl⟩, ?_, ?_, ?_⟩ <;>
    simp [BusRecordingStatistics.add_requests_and_records_info,
      Nat.add_assoc]

/-- Claim C9 (amended): `to_json` produces exactly five labeled fields,
in a stable key order, the two timestamps being rendered with the
configured time format. -/
theorem to_json_five_fields (stats : BusRecordingStatistics)
    (tp : TimeParser) :
    stats.to_json tp =
      [("Number of requests", .num stats.n_requests),
       ("Number of successful requests", .num stats.n_successful_requests),
       ("Number of records", .num stats.n_records),
       ("Processing start time",
        .str (tp.parse_to_str stats.processing_start_time)),
       ("Processing end time",
        .str (tp.parse_to_str stats.processing_end_time))] ∧
    (stats.to_json tp).map Prod.fst =
      ["Number of requests", "Number of successful requests",
       "Number of records", "Processing start time",
       "Processing end time"] ∧
    (stats.to_json tp).length = 5 :=
  ⟨rfl, rfl, rfl⟩

/-- Claim C9, counterexample to the claim as stated: the serialized
statistics dictionary has five labeled fields, not six. -/
theorem to_json_not_six_fields :
    (BusRecordingStatistics.to_json ⟨1, 1, 0, 0, 0⟩
        ⟨fun t => toString t⟩).length = 5 ∧
    (BusRecordingStatistics.to_json ⟨1, 1, 0, 0, 0⟩
        ⟨fun t => toString t⟩).length ≠ 6 :=
  ⟨rfl, by decide⟩

theorem get_speeds_aux_ok_length (gc : Position → Position → ℚ) :
    ∀ (rest : List BusRecord) (prev : BusRecord) (l : List (Option ℚ)),
      get_speeds_aux gc prev rest = .ok l → l.length = rest.length := by
  intro rest
  induction rest with
  | nil =>
    intro prev l h
    simp only [get_speeds_aux] at h
    cases h
    rfl
  | cons r rs ih =>
    intro prev l h
    simp only [get_speeds_aux] at h
    by_cases hv : prev.vehicle_number = r.vehicle_number
    · rw [if_pos hv] at h
      cases hs : get_speed gc prev r with
      | error e => rw [hs] at h; cases h
      | ok s =>
        rw [hs] at h
        cases ht : get_speeds_aux gc r rs with
        | error e => rw [ht] at h; cases h
        | ok l' =>
          rw [ht] at h
          cases h
          simpa using ih r l' ht
    · rw [if_neg hv] at h
      cases ht : get_speeds_aux gc r rs with
      | error e => rw [ht] at h; cases h
      | ok l' =>
        rw [ht] at h
        cases h
        simpa using ih r l' ht

/-- Claim C10: on the empty input `get_speeds` returns the one-element
list `[None]`; whenever it returns a list, the list's length is
`max 1 (input length)` and its first element is `None`. -/
theorem get_speeds_empty_and_length (gc : Position → Position → ℚ) :
    get_speeds gc [] = .ok [none] ∧
    ∀ (bus_recs : List BusRecord) (l : List (Option ℚ)),
      get_speeds gc bus_recs = .ok l →
      l.length = max 1 bus_recs.length ∧ l.head? = some none := by
  refine ⟨rfl, ?_⟩
  intro bus_recs l h
  cases bus_recs with
  | nil =>
    simp only [get_speeds] at h
    cases h
    exact ⟨rfl, rfl⟩
  | cons r rest =>
    simp only [get_speeds] at h
    cases ht : get_speeds_aux gc r rest with
    | error e => rw [ht] at h; cases h
    | ok l' =>
      rw [ht] at h
      cases h
      refine ⟨?_, rfl⟩
      have hl := get_speeds_aux_ok_length gc rest r l' ht
      simp [hl, Nat.max_eq_right (Nat.succ_le_succ (Nat.zero_le _))]

/-- Claim C10, witness at a one-record input. -/
theorem get_speeds_empty_and_length_witness :
    ([(none : Option ℚ)].length = max 1 [sample_record "1000" 0 52].length
      ∧ ([(none : Option ℚ)].head? = some none)) :=
  (get_speeds_empty_and_length (fun _ _ => 1)).2
    [sample_record "1000" 0 52] [none] rfl

/-- Claim C8 (amended): on two records with equal timestamps the speed
computation divides by the zero time delta with no guard and raises
`ZeroDivisionError`; on unequal timestamps it divides unconditionally
with no upstream filtering, and `get_speeds` passes same-vehicle pairs
straight to the division, so an equal-timestamp same-vehicle pair
aborts the whole derivation with the error, which callers must guard
against. -/
theorem get_speed_zero_delta (gc : Position → Position → ℚ)
    (rec1 rec2 : BusRecord) :
    (rec1.time = rec2.time →
      get_speed gc rec1 rec2 = .error .zeroDivisionError) ∧
    (rec1.time ≠ rec2.time →
      get_speed gc rec1 rec2 =
        .ok (gc rec1.pos rec2.pos / ((rec2.time - rec1.time : Int) : ℚ))) ∧
    (∀ rest : List BusRecord,
      rec1.vehicle_number = rec2.vehicle_number → rec1.time = rec2.time →
      get_speeds gc (rec1 :: rec2 :: rest) = .error .zeroDivisionError) := by
  have hzero : rec1.time = rec2.time →
      get_speed gc rec1 rec2 = .error .zeroDivisionError := by
    intro h
    simp [get_speed, h]
  refine ⟨hzero, ?_, ?_⟩
  · intro h
    have hne : ((rec2.time - rec1.time : Int) : ℚ) ≠ 0 := by
      simpa [sub_eq_zero] using fun hc => h hc.symm
    have hne2 : ((rec2.time : ℚ) - (rec1.time : ℚ)) ≠ 0 := by
      push_cast at hne
      exact hne
    simp [get_speed, hne, hne2]
  · intro rest hveh htime
    simp [get_speeds, get_speeds_aux, hveh, hzero htime, Except.map]

/-- Claim C8, witness: equal-timestamp pair raises, a ten-second pair
divides, and the raised error propagates out of `get_speeds`. -/
theorem get_speed_zero_delta_witness :
    get_speed (fun _ _ => (1 : ℚ)) (sample_record "1000" 3 52)
        (sample_record "1000" 3 52) = .error .zeroDivisionError ∧
    get_speed (fun _ _ => (1 : ℚ)) (sample_record "1000" 3 52)
        (sample_record "1000" 13 52)
      = .ok ((fun (_ _ : Position) => (1 : ℚ)) (sample_record "1000" 3 52).pos
          (sample_record "1000" 13 52).pos /
          (((sample_record "1000" 13 52).time
            - (sample_record "1000" 3 52).time : Int) : ℚ)) ∧
    get_speeds (fun _ _ => (1 : ℚ))
        [sample_record "1000" 3 52, sample_record "1000" 3 52]
      = .error .zeroDivisionError :=
  ⟨(get_speed_zero_delta _ _ _).1 rfl,
   (get_speed_zero_delta _ _ _).2.1 (by decide),
   (get_speed_zero_delta _ _ _).2.2 [] rfl rfl⟩

/-- Claim C8, counterexample to the claim as stated: at an explicit
equal-timestamp same-vehicle pair the computation raises
`ZeroDivisionError`; it does not produce any value, non-finite or
otherwise, for a caller to guard against. -/
theorem get_speed_zero_delta_counterexample :
    get_speed (fun _ _ => (1 : ℚ)) (sample_record "1000" 5 52)
        (sample_record "1000" 5 52) = .error .zeroDivisionError ∧
    (get_speed (fun _ _ => (1 : ℚ)) (sample_record "1000" 5 52)
        (sample_record "1000" 5 52)).isOk = false := by
  have h : get_speed (fun _ _ => (1 : ℚ)) (sample_record "1000" 5 52)
      (sample_record "1000" 5 52) = .error .zeroDivisionError := by
    simp [get_speed, sample_record]
  exact ⟨h, by rw [h]; rfl⟩

theorem download_valid_json_success_of_nonList (good : ApiResponse)
    (hgood : is_response_json_valid good = true) :
    ∀ (bad : List ApiResponse) (n : Nat),
      (∀ b ∈ bad, ∃ text, b.result = some (.nonList text)) →
      download_valid_json (bad ++ [good]) n
        = .success good (n + bad.length + 1) := by
  intro bad
  induction bad with
  | nil =>
    intro n _
    simp [download_valid_json, hgood]
  | cons b rest ih =>
    intro n hb
    obtain ⟨text, htext⟩ := hb b (List.mem_cons_self b rest)
    have hbad : is_response_json_valid b = false := by
      simp [is_response_json_valid, htext]
    have step : download_valid_json ((b :: rest) ++ [good]) n
        = download_valid_json (rest ++ [good]) (n + 1) := by
      simp [List.cons_append, download_valid_json, hbad, log_api_error, htext]
    rw [step, ih (n + 1) (fun x hx => hb x (List.mem_cons_of_mem b hx))]
    have hlen : (b :: rest).length = rest.length + 1 := rfl
    congr 1
    omega

/-- Claim C3 (amended): a response whose `result` field is present but
is not a list is logged and retried, the attempt still counting toward
`request_count`; a whole stream of such responses followed by a valid
one yields that valid response with one request counted per attempt,
and a completed fetch contributes exactly one successful request to the
statistics.  A response with no `result` key at all instead raises
`KeyError` inside the error-logging call, terminating the loop. -/
theorem download_valid_json_retry_spec :
    (∀ (rest : List ApiResponse) (n : Nat) (response : ApiResponse)
        (text : String),
      response.result = some (.nonList text) →
      download_valid_json (response :: rest) n
        = download_valid_json rest (n + 1)) ∧
    (∀ (rest : List ApiResponse) (n : Nat) (response : ApiResponse),
      response.result = none →
      download_valid_json (response :: rest) n
        = .raised .keyError (n + 1)) ∧
    (∀ (bad : List ApiResponse) (good : ApiResponse),
      (∀ b ∈ bad, ∃ text, b.result = some (.nonList text)) →
      is_response_json_valid good = true →
      download_valid_json (bad ++ [good]) 0
        = .success good (bad.length + 1)) ∧
    (∀ (responses : List ApiResponse) (t0 : Time)
        (s : BusRecordingStatistics),
      download_current_buses_stats responses t0 = some s →
      s.n_successful_requests = 1) := by
  refine ⟨?_, ?_, ?_, ?_⟩
  · intro rest n response text h
    simp [download_valid_json, is_response_json_valid, h, log_api_error]
  · intro rest n response h
    simp [download_valid_json, is_response_json_valid, h, log_api_error]
  · intro bad good hb hgood
    simpa using download_valid_json_success_of_nonList good hgood bad 0 hb
  · intro responses t0 s h
    simp only [download_current_buses_stats] at h
    cases hd : download_valid_json responses 0 with
    | success r n => rw [hd] at h; cases h; rfl
    | raised e n => rw [hd] at h; cases h
    | retrying n => rw [hd] at h; cases h

/-- Claim C3, witness: an error-text response is retried with the
request count advanced, a missing-key response raises, a malformed
then valid stream succeeds counting both attempts, and a completed
fetch reports one successful request. -/
theorem download_valid_json_retry_spec_witness :
    download_valid_json
        [⟨some (.nonList "error text")⟩, ⟨some (.listResult [])⟩] 0
      = download_valid_json [⟨some (.listResult [])⟩] 1 ∧
    download_valid_json [⟨none⟩] 2 = .raised .keyError 3 ∧
    download_valid_json
        [⟨some (.nonList "error text")⟩, ⟨some (.listResult [])⟩] 0
      = .success ⟨some (.listResult [])⟩ 2 ∧
    (⟨1, 1, 0, 0, 0⟩ : BusRecordingStatistics).n_successful_requests = 1 :=
  ⟨download_valid_json_retry_spec.1 [⟨some (.listResult [])⟩] 0 _
      "error text" rfl,
   download_valid_json_retry_spec.2.1 [] 2 _ rfl,
   download_valid_json_retry_spec.2.2.1 [⟨some (.nonList "error text")⟩] _
      (fun b hb => by
        rw [List.mem_singleton] at hb
        exact hb ▸ ⟨"error text", rfl⟩)
      rfl,
   download_valid_json_retry_spec.2.2.2 [⟨some (.listResult [])⟩] 0
      ⟨1, 1, 0, 0, 0⟩ rfl⟩

/-- Claim C3, counterexample to the claim as stated: a response with no
`result` key terminates the loop with a `KeyError` after one attempt;
the valid response behind it is never reached. -/
theorem download_valid_json_missing_key_counterexample :
    download_valid_json [⟨none⟩, ⟨some (.listResult [])⟩] 0
      = .raised .keyError 1 ∧
    download_valid_json [⟨none⟩, ⟨some (.listResult [])⟩] 0
      ≠ .success ⟨some (.listResult [])⟩ 2 := by
  exact ⟨rfl, by decide⟩

theorem get_speeds_aux_formula (gc : Position → Position → ℚ) :
    ∀ (rest : List BusRecord) (prev : BusRecord),
      (prev :: rest).Chain'
        (fun a b => a.vehicle_number = b.vehicle_number → a.time ≠ b.time) →
      get_speeds_aux gc prev rest =
        .ok (((prev :: rest).zip rest).map (fun p =>
          if p.1.vehicle_number = p.2.vehicle_number
          then some (gc p.1.pos p.2.pos /
            ((p.2.time : ℚ) - (p.1.time : ℚ)))
          else none)) := by
  intro rest
  induction rest with
  | nil => intro prev _; rfl
  | cons r rs ih =>
    intro prev hchain
    rw [List.chain'_cons] at hchain
    have ihr := ih r hchain.2
    by_cases hv : prev.vehicle_number = r.vehicle_number
    · have hne : ((r.time - prev.time : Int) : ℚ) ≠ 0 := by
        simpa [sub_eq_zero] using fun hc => hchain.1 hv hc.symm
      have hrp : ¬(r.time = prev.time) := fun hc => hchain.1 hv hc.symm
      simp [get_speeds_aux, hv, get_speed, hne, hrp, ihr, Except.map,
        List.zip_cons_cons, sub_eq_zero]
    · simp [get_speeds_aux, hv, ihr, Except.map, List.zip_cons_cons]

/-- Claim C4: when no two consecutive same-vehicle records share a
timestamp, the derived speed list starts with `None` at index 0 and,
for every later index, holds the distance between the two consecutive
positions divided by the timestamp difference in seconds when the two
records share a vehicle, and `None` otherwise. -/
theorem get_speeds_formula (gc : Position → Position → ℚ)
    (bus_recs : List BusRecord)
    (hord : bus_recs.Chain'
      (fun a b => a.vehicle_number = b.vehicle_number → a.time ≠ b.time)) :
    get_speeds gc bus_recs =
      .ok (none :: (bus_recs.zip bus_recs.tail).map (fun p =>
        if p.1.vehicle_number = p.2.vehicle_number
        then some (gc p.1.pos p.2.pos /
          ((p.2.time : ℚ) - (p.1.time : ℚ)))
        else none)) := by
  cases bus_recs with
  | nil => rfl
  | cons r rest =>
    simp [get_speeds, get_speeds_aux_formula gc rest r hord, Except.map]

/-- Claim C4, witness: a same-vehicle pair ten seconds apart gets the
distance divided by ten, the vehicle change gets `None`, index 0 gets
`None`. -/
theorem get_speeds_formula_witness :
    get_speeds (fun _ _ => (7 : ℚ))
        [sample_record "1000" 0 52, sample_record "1000" 10 53,
         sample_record "2000" 10 54]
      = .ok [none, some ((7 : ℚ) / 10), none] := by
  have hchain : List.Chain'
      (fun a b : BusRecord =>
        a.vehicle_number = b.vehicle_number → a.time ≠ b.time)
      [sample_record "1000" 0 52, sample_record "1000" 10 53,
       sample_record "2000" 10 54] := by
    refine List.chain'_cons.mpr ⟨fun _ => ?_,
      List.chain'_cons.mpr ⟨fun h => ?_, ?_⟩⟩
    · decide
    · exact absurd h (by decide)
    · exact List.chain'_singleton _
  rw [get_speeds_formula (fun _ _ => (7 : ℚ))
    [sample_record "1000" 0 52, sample_record "1000" 10 53,
     sample_record "2000" 10 54] hchain]
  norm_num [sample_record]
  intro h
  exact absurd h (by decide)

theorem speed_in_band_code_iff (min_speed : ℚ) (max_speed : Option ℚ)
    (speed : Option ℚ) :
    speed_in_band_code min_speed max_speed speed = true ↔
      ∃ s, speed = some s ∧ min_speed < s ∧
        ∀ m, max_speed = some m → s < m := by
  cases speed with
  | none => simp [speed_in_band_code]
  | some s =>
    cases max_speed with
    | none => simp [speed_in_band_code]
    | some m => simp [speed_in_band_code]

theorem mem_speeding_bus_vehicle_nums (min_speed : ℚ) (max_speed : Option ℚ) :
    ∀ (l : List (BusRecord × Option ℚ)) (acc : List VehicleNumberType)
      (v : VehicleNumberType),
      v ∈ speeding_bus_vehicle_nums min_speed max_speed l acc ↔
        v ∈ acc ∨ ∃ p ∈ l, p.1.vehicle_number = v ∧
          speed_in_band_code min_speed max_speed p.2 = true := by
  intro l
  induction l with
  | nil => intro acc v; simp [speeding_bus_vehicle_nums]
  | cons hd rest ih =>
    intro acc v
    obtain ⟨rec, speed⟩ := hd
    simp only [speeding_bus_vehicle_nums]
    by_cases hcond : rec.vehicle_number ∉ acc ∧
        speed_in_band_code min_speed max_speed speed = true
    · rw [if_pos hcond, ih]
      simp only [List.mem_cons, exists_eq_or_imp]
      constructor
      · rintro ((rfl | h) | h)
        · exact Or.inr (Or.inl ⟨rfl, hcond.2⟩)
        · exact Or.inl h
        · exact Or.inr (Or.inr h)
      · rintro (h | (⟨heq, _⟩ | h))
        · exact Or.inl (Or.inr h)
        · exact Or.inl (Or.inl heq.symm)
        · exact Or.inr h
    · rw [if_neg hcond, ih]
      rw [not_and_or, not_not] at hcond
      simp only [List.mem_cons, exists_eq_or_imp]
      constructor
      · rintro (h | h)
        · exact Or.inl h
        · exact Or.inr (Or.inr h)
      · rintro (h | (⟨heq, hband⟩ | h))
        · exact Or.inl h
        · rcases hcond with hacc | hnband
          · exact Or.inl (heq ▸ hacc)
          · exact absurd hband hnband
        · exact Or.inr h

theorem speeding_bus_vehicle_nums_nodup (min_speed : ℚ)
    (max_speed : Option ℚ) :
    ∀ (l : List (BusRecord × Option ℚ)) (acc : List VehicleNumberType),
      acc.Nodup →
      (speeding_bus_vehicle_nums min_speed max_speed l acc).Nodup := by
  intro l
  induction l with
  | nil => intro acc h; simpa [speeding_bus_vehicle_nums] using h
  | cons hd rest ih =>
    intro acc h
    obtain ⟨rec, speed⟩ := hd
    simp only [speeding_bus_vehicle_nums]
    by_cases hcond : rec.vehicle_number ∉ acc ∧
        speed_in_band_code min_speed max_speed speed = true
    · rw [if_pos hcond]
      exact ih _ (List.nodup_cons.mpr ⟨hcond.1, h⟩)
    · rw [if_neg hcond]
      exact ih _ h

theorem speeding_count_eq_card (min_speed : ℚ) (max_speed : Option ℚ)
    (l : List (BusRecord × Option ℚ)) :
    (speeding_bus_vehicle_nums min_speed max_speed l []).length =
      ((l.filter (fun p => speed_in_band_code min_speed max_speed p.2)).map
        (fun p => p.1.vehicle_number)).toFinset.card := by
  have hnd := speeding_bus_vehicle_nums_nodup min_speed max_speed l []
    List.nodup_nil
  rw [← List.toFinset_card_of_nodup hnd]
  congr 1
  apply Finset.ext
  intro v
  simp only [List.mem_toFinset,
    mem_speeding_bus_vehicle_nums min_speed max_speed, List.not_mem_nil,
    false_or, List.mem_map, List.mem_filter]
  constructor
  · rintro ⟨p, hp, hveh, hband⟩
    exact ⟨p, ⟨hp, hband⟩, hveh⟩
  · rintro ⟨p, ⟨hp, hband⟩, hveh⟩
    exact ⟨p, hp, hveh, hband⟩

/-- Claim C7 (amended): for a nonempty input, the summary counts a
vehicle exactly when it has at least one sample whose speed is defined,
strictly above the band minimum, and strictly below the band maximum
when one is given (the band is open at both ends), and reports the
count of such distinct vehicles together with its percentage of the
total number of distinct vehicles in the input. -/
theorem print_bus_speed_info_spec (bus_speeds : List (BusRecord × Option ℚ))
    (min_speed : ℚ) (max_speed : Option ℚ) (hne : bus_speeds ≠ []) :
    (∀ v, v ∈ speeding_bus_vehicle_nums min_speed max_speed bus_speeds [] ↔
      ∃ p ∈ bus_speeds, p.1.vehicle_number = v ∧
        ∃ s, p.2 = some s ∧ min_speed < s ∧
          ∀ m, max_speed = some m → s < m) ∧
    print_bus_speed_info bus_speeds min_speed max_speed =
      .report
        (((bus_speeds.filter
            (fun p => speed_in_band_code min_speed max_speed p.2)).map
          (fun p => p.1.vehicle_number)).toFinset.card)
        ((bus_speeds.map (fun p => p.1.vehicle_number)).toFinset.card)
        (((((bus_speeds.filter
            (fun p => speed_in_band_code min_speed max_speed p.2)).map
          (fun p => p.1.vehicle_number)).toFinset.card : ℚ) /
          (((bus_speeds.map
            (fun p => p.1.vehicle_number)).toFinset.card : ℚ))) * 100) := by
  constructor
  · intro v
    rw [mem_speeding_bus_vehicle_nums]
    simp only [List.not_mem_nil, false_or, speed_in_band_code_iff]
  · cases bus_speeds with
    | nil => exact absurd rfl hne
    | cons hd tl =>
      simp only [print_bus_speed_info]
      rw [speeding_count_eq_card, ← List.card_toFinset]

/-- Claim C7, witness: two vehicles, one with a sample strictly inside
the band, yields a count of one and a percentage of fifty. -/
theorem print_bus_speed_info_spec_witness :
    print_bus_speed_info
        [(sample_record "1000" 0 52, some 10),
         (sample_record "2000" 0 52, some 1)] 5 none = .report 1 2 50 := by
  rw [(print_bus_speed_info_spec
    [(sample_record "1000" 0 52, some 10),
     (sample_record "2000" 0 52, some 1)] 5 none (by decide)).2]
  rw [show ((([(sample_record "1000" 0 52, some 10),
      (sample_record "2000" 0 52, some 1)].filter
        (fun p => speed_in_band_code 5 none p.2)).map
      (fun p => p.1.vehicle_number)).toFinset.card) = 1 from by decide]
  rw [show (([(sample_record "1000" 0 52, some (10 : ℚ)),
      (sample_record "2000" 0 52, some (1 : ℚ))].map
      (fun p => p.1.vehicle_number)).toFinset.card) = 2 from by decide]
  norm_num

/-- Claim C7, counterexample to the claim as stated: a sample whose
speed equals the band minimum lies in the claim's half-closed band
`[min, max)`, yet the vehicle is not counted — the code compares with
strict inequality at the minimum. -/
theorem print_bus_speed_info_counterexample :
    ((5 : ℚ) ≤ 5) ∧
    print_bus_speed_info [(sample_record "1000" 0 52, some 5)] 5 none
      = .report 0 1 0 := by
  refine ⟨le_refl 5, ?_⟩
  have hn : speeding_bus_vehicle_nums 5 none
      [(sample_record "1000" 0 52, some 5)] [] = [] := by decide
  have hd : (([(sample_record "1000" 0 52, some 5)].map
      (fun p : BusRecord × Option ℚ => p.1.vehicle_number)).dedup).length
        = 1 := by decide
  simp only [print_bus_speed_info, hn, hd, List.length_nil]
  norm_num

theorem card_insert_eq_one_add_card_erase {α : Type} [DecidableEq α]
    (a : α) (s : Finset α) :
    (insert a s).card = 1 + (s.erase a).card := by
  have h : insert a s = insert a (s.erase a) := by
    ext x
    simp only [Finset.mem_insert, Finset.mem_erase]
    constructor
    · rintro (rfl | hx)
      · exact Or.inl rfl
      · by_cases hxa : x = a
        · exact Or.inl hxa
        · exact Or.inr ⟨hxa, hx⟩
    · rintro (rfl | ⟨_, hx⟩)
      · exact Or.inl rfl
      · exact Or.inr hx
  rw [h, Finset.card_insert_of_not_mem (Finset.not_mem_erase a s)]
  omega

theorem count_in_vicinity_spec (gc : Position → Position → ℚ)
    (seed : BusRecord) :
    ∀ (l : List (BusRecord × Option ℚ))
      (visited : List (VehicleNumberType × Time)) (n : Nat),
      (count_in_vicinity gc seed l visited n).1
        = n + ((l.filter (fun p => decide (recKey p.1 ∉ visited) &&
            decide (gc seed.pos p.1.pos < 100))).map
              (fun p => recKey p.1)).toFinset.card ∧
      ∀ k, k ∈ (count_in_vicinity gc seed l visited n).2 ↔
        (k ∈ visited ∨
          k ∈ ((l.filter (fun p => decide (recKey p.1 ∉ visited) &&
            decide (gc seed.pos p.1.pos < 100))).map
              (fun p => recKey p.1)).toFinset) := by
  intro l
  induction l with
  | nil =>
    intro visited n
    simp [count_in_vicinity]
  | cons q rest ih =>
    intro visited n
    obtain ⟨rec2, s2⟩ := q
    by_cases hc : recKey rec2 ∉ visited ∧ gc seed.pos rec2.pos < 100
    · have hhead : (decide (recKey rec2 ∉ visited) &&
          decide (gc seed.pos rec2.pos < 100)) = true := by
        simp [hc.1, hc.2]
      obtain ⟨ih1, ih2⟩ := ih (recKey rec2 :: visited) (n + 1)
      have herase : ((rest.filter
            (fun p => decide (recKey p.1 ∉ (recKey rec2 :: visited)) &&
              decide (gc seed.pos p.1.pos < 100))).map
            (fun p => recKey p.1)).toFinset
          = (((rest.filter (fun p => decide (recKey p.1 ∉ visited) &&
              decide (gc seed.pos p.1.pos < 100))).map
                (fun p => recKey p.1)).toFinset).erase (recKey rec2) := by
        ext k
        simp only [List.mem_toFinset, List.mem_map, List.mem_filter,
          Bool.and_eq_true, decide_eq_true_eq, List.mem_cons, not_or,
          Finset.mem_erase]
        constructor
        · rintro ⟨p, ⟨hp, ⟨hne, hnv⟩, hclose⟩, rfl⟩
          exact ⟨hne, p, ⟨hp, hnv, hclose⟩, rfl⟩
        · rintro ⟨hne, p, ⟨hp, hnv, hclose⟩, rfl⟩
          exact ⟨p, ⟨hp, ⟨hne, hnv⟩, hclose⟩, rfl⟩
      have hcons : ((((rec2, s2) :: rest).filter
            (fun p => decide (recKey p.1 ∉ visited) &&
              decide (gc seed.pos p.1.pos < 100))).map
            (fun p => recKey p.1)).toFinset
          = insert (recKey rec2)
              (((rest.filter (fun p => decide (recKey p.1 ∉ visited) &&
                decide (gc seed.pos p.1.pos < 100))).map
                  (fun p => recKey p.1)).toFinset) := by
        rw [List.filter_cons, if_pos hhead, List.map_cons, List.toFinset_cons]
      constructor
      · simp only [count_in_vicinity, if_pos hc]
        rw [ih1, herase, hcons, card_insert_eq_one_add_card_erase]
        omega
      · intro k
        simp only [count_in_vicinity, if_pos hc]
        rw [ih2 k, herase, hcons]
        simp only [List.mem_cons, Finset.mem_erase, Finset.mem_insert]
        by_cases hk : k = recKey rec2
        · subst hk
          tauto
        · tauto
    · have hhead : (decide (recKey rec2 ∉ visited) &&
          decide (gc seed.pos rec2.pos < 100)) = false := by
        by_contra hb
        rw [Bool.not_eq_false, Bool.and_eq_true, decide_eq_true_eq,
          decide_eq_true_eq] at hb
        exact hc hb
      have hcons : (((rec2, s2) :: rest).filter
            (fun p => decide (recKey p.1 ∉ visited) &&
              decide (gc seed.pos p.1.pos < 100)))
          = (rest.filter (fun p => decide (recKey p.1 ∉ visited) &&
              decide (gc seed.pos p.1.pos < 100))) := by
        rw [List.filter_cons, if_neg (by rw [hhead]; exact Bool.false_ne_true)]
      obtain ⟨ih1, ih2⟩ := ih visited n
      constructor
      · simp only [count_in_vicinity, if_neg hc]
        rw [ih1, hcons]
      · intro k
        simp only [count_in_vicinity, if_neg hc]
        rw [ih2 k, hcons]

theorem poi_loop_spec (gc : Position → Position → ℚ)
    (all : List (BusRecord × Option ℚ)) :
    ∀ (l : List (BusRecord × Option ℚ))
      (v1 : List (VehicleNumberType × Time))
      (v2 : Finset (VehicleNumberType × Time)),
      (∀ k, k ∈ v1 ↔ k ∈ v2) →
      poi_loop gc all l v1 = spec_clusters_go gc all l v2 := by
  intro l
  induction l with
  | nil => intro v1 v2 _; simp [poi_loop, spec_clusters_go]
  | cons q rest ih =>
    intro v1 v2 hv
    obtain ⟨rec, s⟩ := q
    by_cases hmem : recKey rec ∈ v1
    · simp only [poi_loop, spec_clusters_go, if_pos hmem,
        if_pos ((hv (recKey rec)).mp hmem)]
      exact ih v1 v2 hv
    · have hmem2 : recKey rec ∉ v2 := fun hcon => hmem ((hv _).mpr hcon)
      have hfc : (all.filter
            (fun p => decide (recKey p.1 ∉ (recKey rec :: v1)) &&
              decide (gc rec.pos p.1.pos < 100)))
          = (all.filter
              (fun p => decide (recKey p.1 ∉ insert (recKey rec) v2) &&
                decide (gc rec.pos p.1.pos < 100))) := by
        apply List.filter_congr
        intro p _
        congr 1
        rw [decide_eq_decide]
        simp only [List.mem_cons, Finset.mem_insert, hv (recKey p.1)]
      obtain ⟨h1, h2⟩ := count_in_vicinity_spec gc rec all
        (recKey rec :: v1) 1
      have hcard : (count_in_vicinity gc rec all (recKey rec :: v1) 1).1
          = 1 + (spec_cluster_members gc rec (insert (recKey rec) v2)
              all).card := by
        rw [h1, spec_cluster_members, hfc]
      have hnextv : ∀ k,
          k ∈ (count_in_vicinity gc rec all (recKey rec :: v1) 1).2 ↔
          k ∈ spec_cluster_members gc rec (insert (recKey rec) v2) all
            ∪ insert (recKey rec) v2 := by
        intro k
        rw [h2 k, spec_cluster_members, hfc]
        simp only [List.mem_cons, Finset.mem_union, Finset.mem_insert,
          hv k]
        tauto
      simp only [poi_loop, spec_clusters_go, if_neg hmem, if_neg hmem2]
      rw [hcard]
      exact congrArg _ (ih _ _ hnextv)

/-- Claim C5: on every input list, the clustering walks the records in
input order, seeds a cluster at each not-yet-visited record, marks
exactly the other unvisited records strictly within 100 meters of the
seed as that cluster's members in a single pass — distance to the seed
only, no transitive merging — and reports each cluster as (seed
position, member count with the seed included): the code coincides
with the spec-level description `spec_clusters` on all inputs.  In
particular, three records at mutually-within-100-meter positions yield
exactly one cluster with member count 3. -/
theorem get_positions_of_interest_spec (gc : Position → Position → ℚ) :
    (∀ bus_speeds : List (BusRecord × Option ℚ),
      get_positions_of_interest gc bus_speeds
        = spec_clusters gc bus_speeds) ∧
    (∀ (r1 r2 r3 : BusRecord) (s1 s2 s3 : Option ℚ),
      recKey r1 ≠ recKey r2 → recKey r1 ≠ recKey r3 →
      recKey r2 ≠ recKey r3 →
      gc r1.pos r2.pos < 100 → gc r1.pos r3.pos < 100 →
      gc r2.pos r3.pos < 100 →
      get_positions_of_interest gc [(r1, s1), (r2, s2), (r3, s3)]
        = [(r1.pos, 3)]) := by
  constructor
  · intro bus_speeds
    exact poi_loop_spec gc bus_speeds bus_speeds [] ∅ (by simp)
  · intro r1 r2 r3 s1 s2 s3 hk12 hk13 hk23 hd12 hd13 _
    simp [get_positions_of_interest, poi_loop, count_in_vicinity,
      hd12, hd13, hk12.symm, hk13.symm, hk23.symm, List.mem_cons]

/-- Claim C5, witness: the code/spec coincidence evaluated on a
concrete two-record list, and three concrete mutually-close records
clustering into one cluster of member count 3. -/
theorem get_positions_of_interest_spec_witness :
    get_positions_of_interest (fun _ _ => (0 : ℚ))
        [(sample_record "1" 0 52, none), (sample_record "2" 0 52, none)]
      = spec_clusters (fun _ _ => (0 : ℚ))
        [(sample_record "1" 0 52, none), (sample_record "2" 0 52, none)] ∧
    get_positions_of_interest (fun _ _ => (0 : ℚ))
        [(sample_record "1" 0 52, none), (sample_record "2" 0 52, none),
         (sample_record "3" 0 52, none)]
      = [((sample_record "1" 0 52).pos, 3)] :=
  ⟨(get_positions_of_interest_spec (fun _ _ => (0 : ℚ))).1
      [(sample_record "1" 0 52, none), (sample_record "2" 0 52, none)],
   (get_positions_of_interest_spec (fun _ _ => (0 : ℚ))).2
      (sample_record "1" 0 52) (sample_record "2" 0 52)
      (sample_record "3" 0 52) none none none
      (by decide) (by decide) (by decide)
      (by decide) (by decide) (by decide)⟩

theorem dict_insert_self (m : LastBusRecs) (veh_num : VehicleNumberType)
    (t : Time) : dict_insert m veh_num t veh_num = some t := by
  simp [dict_insert]

theorem dict_insert_other (m : LastBusRecs) (veh_num : VehicleNumberType)
    (t : Time) (v : VehicleNumberType) (h : v ≠ veh_num) :
    dict_insert m veh_num t v = m v := by
  simp [dict_insert, h]

theorem empty_last_seen_inv (S : Time) : LastSeenInv S [] empty_last_seen :=
  ⟨fun _ _ a ha => absurd ha (List.not_mem_nil a),
   fun _ _ hv => Option.noConfusion hv⟩

theorem lastSeenInv_insert_rejected (S : Time) (acc : List BusRecord)
    (m : LastBusRecs) (r : BusRecord) (h : LastSeenInv S acc m)
    (hS : r.time ≤ S)
    (hbound : ∀ a ∈ acc,
      a.vehicle_number = r.vehicle_number → a.time ≤ r.time) :
    LastSeenInv S acc (dict_insert m r.vehicle_number r.time) := by
  obtain ⟨h1, h2⟩ := h
  constructor
  · intro v hv a ha
    by_cases hveq : v = r.vehicle_number
    · rw [hveq, dict_insert_self] at hv
      cases hv
    · exact h1 v (by rwa [dict_insert_other m _ _ v hveq] at hv) a ha
  · intro v t hv
    by_cases hveq : v = r.vehicle_number
    · subst hveq
      rw [dict_insert_self] at hv
      cases hv
      exact ⟨fun a ha hveh => hbound a ha hveh, Or.inl hS⟩
    · rw [dict_insert_other m _ _ v hveq] at hv
      exact h2 v t hv

theorem lastSeenInv_insert_accepted (S : Time) (acc : List BusRecord)
    (m : LastBusRecs) (r : BusRecord) (h : LastSeenInv S acc m)
    (hbound : ∀ a ∈ acc,
      a.vehicle_number = r.vehicle_number → a.time ≤ r.time) :
    LastSeenInv S (acc ++ [r]) (dict_insert m r.vehicle_number r.time) := by
  obtain ⟨h1, h2⟩ := h
  constructor
  · intro v hv a ha
    by_cases hveq : v = r.vehicle_number
    · rw [hveq, dict_insert_self] at hv
      cases hv
    · rw [dict_insert_other m _ _ v hveq] at hv
      rcases List.mem_append.mp ha with ha | ha
      · exact h1 v hv a ha
      · rw [List.mem_singleton] at ha
        subst ha
        exact fun hc => hveq hc.symm
  · intro v t hv
    by_cases hveq : v = r.vehicle_number
    · subst hveq
      rw [dict_insert_self] at hv
      cases hv
      refine ⟨?_, Or.inr ⟨r, List.mem_append_right _ (List.mem_singleton_self r),
        rfl, rfl⟩⟩
      intro a ha hveh
      rcases List.mem_append.mp ha with ha | ha
      · exact hbound a ha hveh
      · rw [List.mem_singleton] at ha
        subst ha
        exact le_refl _
    · rw [dict_insert_other m _ _ v hveq] at hv
      obtain ⟨hh1, hh2⟩ := h2 v t hv
      refine ⟨?_, ?_⟩
      · intro a ha hveh
        rcases List.mem_append.mp ha with ha | ha
        · exact hh1 a ha hveh
        · rw [List.mem_singleton] at ha
          subst ha
          exact absurd hveh.symm hveq
      · rcases hh2 with hh2 | ⟨a, ha, hav, hat⟩
        · exact Or.inl hh2
        · exact Or.inr ⟨a, List.mem_append_left _ ha, hav, hat⟩

theorem is_record_valid_inv_step (S : Time) (acc : List BusRecord)
    (m : LastBusRecs) (r : BusRecord) (h : LastSeenInv S acc m) :
    LastSeenInv S (if (is_record_valid m r S).1 then acc ++ [r] else acc)
      (is_record_valid m r S).2 := by
  cases hm : m r.vehicle_number with
  | some t =>
    by_cases hge : t ≥ r.time
    · have hval : is_record_valid m r S = (false, m) := by
        simp [is_record_valid, hm, hge]
      rw [hval]
      simpa using h
    · have hbound : ∀ a ∈ acc,
          a.vehicle_number = r.vehicle_number → a.time ≤ r.time := by
        intro a ha hveh
        exact le_trans ((h.2 r.vehicle_number t hm).1 a ha hveh)
          (le_of_lt (lt_of_not_ge hge))
      have hval : is_record_valid m r S = (decide (r.time > S),
          dict_insert m r.vehicle_number r.time) := by
        simp [is_record_valid, hm, hge]
      rw [hval]
      by_cases hS : r.time > S
      · simpa [hS] using lastSeenInv_insert_accepted S acc m r h hbound
      · simpa [hS] using lastSeenInv_insert_rejected S acc m r h
          (not_lt.mp hS) hbound
  | none =>
    have hbound : ∀ a ∈ acc,
        a.vehicle_number = r.vehicle_number → a.time ≤ r.time := by
      intro a ha hveh
      exact absurd hveh (h.1 r.vehicle_number hm a ha)
    have hval : is_record_valid m r S = (decide (r.time > S),
        dict_insert m r.vehicle_number r.time) := by
      simp [is_record_valid, hm]
    rw [hval]
    by_cases hS : r.time > S
    · simpa [hS] using lastSeenInv_insert_accepted S acc m r h hbound
    · simpa [hS] using lastSeenInv_insert_rejected S acc m r h
        (not_lt.mp hS) hbound

theorem is_record_valid_true_iff (S : Time) (acc : List BusRecord)
    (m : LastBusRecs) (r : BusRecord) (h : LastSeenInv S acc m) :
    (is_record_valid m r S).1 = true ↔
      ((∀ a ∈ acc, a.vehicle_number = r.vehicle_number → a.time < r.time) ∧
        S < r.time) := by
  cases hm : m r.vehicle_number with
  | some t =>
    by_cases hge : t ≥ r.time
    · have hval : (is_record_valid m r S).1 = false := by
        simp [is_record_valid, hm, hge]
      rw [hval]
      simp only [Bool.false_eq_true, false_iff, not_and]
      intro hall hS
      rcases (h.2 r.vehicle_number t hm).2 with hts | ⟨a, ha, hav, hat⟩
      · exact absurd hS (not_lt.mpr (le_trans hge hts))
      · exact absurd (hall a ha hav) (not_lt.mpr (hat ▸ hge))
    · have hval : (is_record_valid m r S).1 = decide (r.time > S) := by
        simp [is_record_valid, hm, hge]
      rw [hval, decide_eq_true_eq]
      constructor
      · intro hS
        refine ⟨fun a ha hveh => ?_, hS⟩
        exact lt_of_le_of_lt ((h.2 r.vehicle_number t hm).1 a ha hveh)
          (lt_of_not_ge hge)
      · exact And.right
  | none =>
    have hval : (is_record_valid m r S).1 = decide (r.time > S) := by
      simp [is_record_valid, hm]
    rw [hval, decide_eq_true_eq]
    constructor
    · intro hS
      exact ⟨fun a ha hveh => absurd hveh (h.1 r.vehicle_number hm a ha), hS⟩
    · exact And.right

theorem filter_valid_inv (S : Time) :
    ∀ (recs : List BusRecord) (acc : List BusRecord) (m : LastBusRecs),
      LastSeenInv S acc m →
      LastSeenInv S (acc ++ (filter_valid S m recs).1)
        (filter_valid S m recs).2 := by
  intro recs
  induction recs with
  | nil => intro acc m h; simpa [filter_valid] using h
  | cons r rs ih =>
    intro acc m h
    have hstep := is_record_valid_inv_step S acc m r h
    cases hb : (is_record_valid m r S).1 with
    | true =>
      rw [if_pos hb] at hstep
      have hnext := ih (acc ++ [r]) (is_record_valid m r S).2 hstep
      rw [List.append_assoc, List.singleton_append] at hnext
      simpa [filter_valid, hb] using hnext
    | false =>
      rw [if_neg (by simp [hb])] at hstep
      have hnext := ih acc (is_record_valid m r S).2 hstep
      simpa [filter_valid, hb] using hnext

theorem filter_valid_inv_nil (S : Time) (recs : List BusRecord) :
    LastSeenInv S (filter_valid S empty_last_seen recs).1
      (filter_valid S empty_last_seen recs).2 := by
  simpa using filter_valid_inv S recs [] empty_last_seen
    (empty_last_seen_inv S)

theorem is_record_valid_mono (m : LastBusRecs) (r : BusRecord) (S : Time)
    (v : VehicleNumberType) (t0 : Time) (h : m v = some t0) :
    ∃ t1, (is_record_valid m r S).2 v = some t1 ∧ t0 ≤ t1 := by
  cases hm : m r.vehicle_number with
  | some t =>
    by_cases hge : t ≥ r.time
    · exact ⟨t0, by simp [is_record_valid, hm, hge, h], le_refl t0⟩
    · by_cases hveq : v = r.vehicle_number
      · subst hveq
        rw [h] at hm
        cases hm
        refine ⟨r.time, ?_, le_of_lt (lt_of_not_ge hge)⟩
        simp [is_record_valid, h, hge, dict_insert_self]
      · refine ⟨t0, ?_, le_refl t0⟩
        simp only [is_record_valid, hm, if_neg hge]
        rw [dict_insert_other m _ _ v hveq]
        exact h
  | none =>
    by_cases hveq : v = r.vehicle_number
    · subst hveq
      rw [h] at hm
      cases hm
    · refine ⟨t0, ?_, le_refl t0⟩
      simp only [is_record_valid, hm]
      rw [dict_insert_other m _ _ v hveq]
      exact h

theorem is_record_valid_seen (m : LastBusRecs) (r : BusRecord) (S : Time) :
    ∃ t, (is_record_valid m r S).2 r.vehicle_number = some t ∧
      r.time ≤ t := by
  cases hm : m r.vehicle_number with
  | some t =>
    by_cases hge : t ≥ r.time
    · exact ⟨t, by simp [is_record_valid, hm, hge], hge⟩
    · refine ⟨r.time, ?_, le_refl _⟩
      simp [is_record_valid, hm, hge, dict_insert_self]
  | none =>
    refine ⟨r.time, ?_, le_refl _⟩
    simp [is_record_valid, hm, dict_insert_self]

theorem filter_valid_mono (S : Time) :
    ∀ (recs : List BusRecord) (m : LastBusRecs) (v : VehicleNumberType)
      (t0 : Time), m v = some t0 →
      ∃ t1, (filter_valid S m recs).2 v = some t1 ∧ t0 ≤ t1 := by
  intro recs
  induction recs with
  | nil =>
    intro m v t0 h
    exact ⟨t0, by simpa [filter_valid] using h, le_refl t0⟩
  | cons r rs ih =>
    intro m v t0 h
    obtain ⟨t1, h1, ht1⟩ := is_record_valid_mono m r S v t0 h
    obtain ⟨t2, h2, ht2⟩ := ih (is_record_valid m r S).2 v t1 h1
    exact ⟨t2, by simpa [filter_valid] using h2, le_trans ht1 ht2⟩

theorem filter_valid_seen (S : Time) :
    ∀ (recs : List BusRecord) (m : LastBusRecs) (r0 : BusRecord),
      r0 ∈ recs →
      ∃ t, (filter_valid S m recs).2 r0.vehicle_number = some t ∧
        r0.time ≤ t := by
  intro recs
  induction recs with
  | nil => intro m r0 h; exact absurd h (List.not_mem_nil r0)
  | cons r rs ih =>
    intro m r0 h
    rcases List.mem_cons.mp h with heq | h
    · subst heq
      obtain ⟨t1, h1, ht1⟩ := is_record_valid_seen m r0 S
      obtain ⟨t2, h2, ht2⟩ := filter_valid_mono S rs
        (is_record_valid m r0 S).2 r0.vehicle_number t1 h1
      exact ⟨t2, by simpa [filter_valid] using h2, le_trans ht1 ht2⟩
    · obtain ⟨t, h2, ht⟩ := ih (is_record_valid m r S).2 r0 h
      exact ⟨t, by simpa [filter_valid] using h2, ht⟩

theorem is_record_valid_false_of_seen (S : Time) (m : LastBusRecs)
    (r : BusRecord) (t : Time) (hm : m r.vehicle_number = some t)
    (hge : r.time ≤ t) : (is_record_valid m r S).1 = false := by
  simp [is_record_valid, hm, hge]

theorem is_record_valid_false_of_early (S : Time) (m : LastBusRecs)
    (r : BusRecord) (hS : r.time ≤ S) :
    (is_record_valid m r S).1 = false := by
  cases hm : m r.vehicle_number with
  | some t =>
    by_cases hge : t ≥ r.time
    · simp [is_record_valid, hm, hge]
    · simp [is_record_valid, hm, hge, not_lt.mpr hS]
  | none => simp [is_record_valid, hm, not_lt.mpr hS]

/-- Claim C1: against the state reached after any processed stream, a
record for vehicle V at timestamp T passes `_is_record_valid` exactly
when every previously accepted record of V is strictly older than T
and T is strictly after the session start; a record with T at or
before the session start is rejected whatever the dictionary state;
and because the last-seen entry is written before the session-start
check, any record of V seen earlier — a rejected pre-session one
included — forces rejection of a later record of V whose timestamp
does not exceed it. -/
theorem record_validity_rule (S : Time) (recs : List BusRecord)
    (r : BusRecord) :
    ((is_record_valid (filter_valid S empty_last_seen recs).2 r S).1 = true ↔
      ((∀ a ∈ (filter_valid S empty_last_seen recs).1,
          a.vehicle_number = r.vehicle_number → a.time < r.time) ∧
        S < r.time)) ∧
    (∀ m : LastBusRecs, r.time ≤ S → (is_record_valid m r S).1 = false) ∧
    (∀ (before after : List BusRecord) (r0 : BusRecord),
      r0.time ≤ S → r.vehicle_number = r0.vehicle_number →
      r.time ≤ r0.time →
      (is_record_valid
        (filter_valid S empty_last_seen (before ++ r0 :: after)).2
        r S).1 = false) := by
  refine ⟨?_, ?_, ?_⟩
  · exact is_record_valid_true_iff S _ _ r (filter_valid_inv_nil S recs)
  · intro m hS
    exact is_record_valid_false_of_early S m r hS
  · intro before after r0 _ hveh htime
    obtain ⟨t, ht, hge⟩ := filter_valid_seen S (before ++ r0 :: after)
      empty_last_seen r0
      (List.mem_append_right before (List.mem_cons_self r0 after))
    have hm : (filter_valid S empty_last_seen
        (before ++ r0 :: after)).2 r.vehicle_number = some t := by
      rw [hveh]; exact ht
    exact is_record_valid_false_of_seen S _ r t hm (le_trans htime hge)

/-- Claim C1, witness: a fresh later record is accepted; a record at or
before the session start is rejected on any state; after a rejected
pre-session record, an even older record of the same vehicle is still
rejected. -/
theorem record_validity_rule_witness :
    ((is_record_valid
        (filter_valid 0 empty_last_seen [sample_record "1000" 5 52]).2
        (sample_record "1000" 7 52) 0).1 = true) ∧
    ((is_record_valid empty_last_seen (sample_record "1000" (-1) 52) 0).1
      = false) ∧
    ((is_record_valid
        (filter_valid 0 empty_last_seen
          ([] ++ sample_record "1000" (-1) 52 :: [])).2
        (sample_record "1000" (-2) 52) 0).1 = false) :=
  ⟨(record_validity_rule 0 [sample_record "1000" 5 52]
      (sample_record "1000" 7 52)).1.mpr ⟨by decide, by decide⟩,
   (record_validity_rule 0 [] (sample_record "1000" (-1) 52)).2.1
      empty_last_seen (by decide),
   (record_validity_rule 0 [] (sample_record "1000" (-2) 52)).2.2
      [] [] (sample_record "1000" (-1) 52) (by decide) rfl (by decide)⟩

theorem filter_valid_append (S : Time) :
    ∀ (l1 l2 : List BusRecord) (m : LastBusRecs),
      filter_valid S m (l1 ++ l2)
        = ((filter_valid S m l1).1
            ++ (filter_valid S (filter_valid S m l1).2 l2).1,
           (filter_valid S (filter_valid S m l1).2 l2).2) := by
  intro l1
  induction l1 with
  | nil => intro l2 m; simp [filter_valid]
  | cons r rs ih =>
    intro l2 m
    simp only [List.cons_append, filter_valid, List.append_eq]
    rw [ih l2 (is_record_valid m r S).2]
    cases hb : (is_record_valid m r S).1 <;> simp [hb]

theorem record_buses_loop_go_fst (S : Time) :
    ∀ (snapshots : List (List BusRecord × BusRecordingStatistics))
      (m : LastBusRecs) (stats : BusRecordingStatistics),
      (record_buses_loop_go S m stats snapshots).1
        = (filter_valid S m (snapshots.map Prod.fst).flatten).1 := by
  intro snapshots
  induction snapshots with
  | nil => intro m stats; simp [record_buses_loop_go, filter_valid]
  | cons p rest ih =>
    intro m stats
    obtain ⟨recs, st⟩ := p
    simp only [record_buses_loop_go, List.map_cons, List.flatten_cons]
    rw [filter_valid_append S recs ((rest.map Prod.fst).flatten) m]
    simp [ih]

theorem filter_valid_pairwise (S : Time) :
    ∀ (recs : List BusRecord) (acc : List BusRecord) (m : LastBusRecs),
      LastSeenInv S acc m →
      acc.Pairwise
        (fun a b => a.vehicle_number = b.vehicle_number → a.time < b.time) →
      (acc ++ (filter_valid S m recs).1).Pairwise
        (fun a b => a.vehicle_number = b.vehicle_number → a.time < b.time) := by
  intro recs
  induction recs with
  | nil => intro acc m _ hp; simpa [filter_valid] using hp
  | cons r rs ih =>
    intro acc m hinv hp
    have hstep := is_record_valid_inv_step S acc m r hinv
    cases hb : (is_record_valid m r S).1 with
    | true =>
      rw [if_pos hb] at hstep
      have hlt := (is_record_valid_true_iff S acc m r hinv).mp hb
      have hp2 : (acc ++ [r]).Pairwise
          (fun a b =>
            a.vehicle_number = b.vehicle_number → a.time < b.time) := by
        rw [List.pairwise_append]
        refine ⟨hp, List.pairwise_singleton _ _, ?_⟩
        intro a ha b hbmem
        rw [List.mem_singleton] at hbmem
        subst hbmem
        exact fun hveh => hlt.1 a ha hveh
      have hnext := ih (acc ++ [r]) (is_record_valid m r S).2 hstep hp2
      rw [List.append_assoc, List.singleton_append] at hnext
      simpa [filter_valid, hb] using hnext
    | false =>
      rw [if_neg (by simp [hb])] at hstep
      have hnext := ih acc (is_record_valid m r S).2 hstep hp
      simpa [filter_valid, hb] using hnext

/-- Claim C2: over any recording session and any sequence of fetched
snapshots, the records the loop accepts for one fixed vehicle, in
acceptance order, carry strictly increasing timestamps — no equal
timestamps and no out-of-order entry. -/
theorem accepted_per_vehicle_strictly_increasing (S t0 : Time)
    (snapshots : List (List BusRecord × BusRecordingStatistics))
    (v : VehicleNumberType) :
    (((record_buses_loop S t0 snapshots).1.filter
        (fun r => r.vehicle_number == v)).map (fun r => r.time)).Pairwise
      (fun t1 t2 => t1 < t2) := by
  have hfst : (record_buses_loop S t0 snapshots).1
      = (filter_valid S empty_last_seen (snapshots.map Prod.fst).flatten).1 :=
    record_buses_loop_go_fst S snapshots empty_last_seen _
  rw [hfst]
  have hpw := filter_valid_pairwise S ((snapshots.map Prod.fst).flatten) []
    empty_last_seen (empty_last_seen_inv S) List.Pairwise.nil
  simp only [List.nil_append] at hpw
  have hfil : (((filter_valid S empty_last_seen
      (snapshots.map Prod.fst).flatten).1.filter
        (fun r => r.vehicle_number == v)).Pairwise
      (fun a b => a.vehicle_number = b.vehicle_number → a.time < b.time)) :=
    List.Pairwise.sublist (List.filter_sublist _) hpw
  rw [List.pairwise_map]
  refine List.Pairwise.imp_of_mem ?_ hfil
  intro a b ha hb hR
  have hav : a.vehicle_number = v := by
    simpa using (List.mem_filter.mp ha).2
  have hbv : b.vehicle_number = v := by
    simpa using (List.mem_filter.mp hb).2
  exact hR (hav.trans hbv.symm)

end BusAnalysis
